import Mathlib

/-!
Verification of the dependency-graph construction and architectural smell
detection engine of the Project-Analyzer repository.

Python sources are shallowly embedded:

* `analyzer/dependency_analysis.py` — `DependencyGraph` (`defaultdict(set)`
  adjacency in both directions), `add_dependency`, `get_import_count`,
  and the dependency-graph cache (de)serialization;
* `analyzer/pattern_analysis.py` — `PatternAnalyzer._detect_cyclic_dependencies`
  (DFS cycle enumeration plus normalization/deduplication);
* `analyzer/architectural_analysis.py` — `_convert_patterns_to_smells`;
* `project_analyzer.py` — `ArchitecturalSniffer._check_boundary_violations`,
  `_get_layer_path`, `_check_blast_radius`;
* `analyzer/utils.py` — `get_project_hash`;
* `analyzer/git_analysis.py` + `analyzer/decorators.py` — the git-backed
  detectors and the `cache_result` decorator.

Python `dict` / `defaultdict` values are modelled as insertion-ordered
association lists (CPython dicts preserve insertion order).  Python `set`
objects are modelled as insertion-ordered duplicate-free lists: membership and
cardinality agree with the Python set, and the list order is one fixed choice
of Python's unspecified set iteration order.
-/

namespace ProjectAnalyzer

/-- A Python `set` of strings, as an insertion-ordered duplicate-free list. -/
abbrev DSet := List String

/-- `s.add(x)` on a Python set: a no-op when present, else appended in
insertion order. -/
def listInsert (l : DSet) (x : String) : DSet :=
  if x ∈ l then l else l ++ [x]

/-- `defaultdict(set)` keyed by strings: an insertion-ordered association list
from keys to sets.  Used for `DependencyGraph.imports` and
`DependencyGraph.imported_by` (`analyzer/dependency_analysis.py`, lines 21-24). -/
abbrev DMap := List (String × DSet)

/-- Pure read of `m[k]`: the stored set, or the default `set()` when the key is
absent (first matching entry; keys of states built by the program are unique). -/
def dmGet : DMap → String → DSet
  | [], _ => []
  | e :: rest, k => if e.1 = k then e.2 else dmGet rest k

/-- `m[k].add(v)` on a `defaultdict(set)`: update the entry in place, creating
the key (at the end of the insertion order) when absent. -/
def dmAdd : DMap → String → String → DMap
  | [], k, v => [(k, [v])]
  | e :: rest, k, v =>
    if e.1 = k then (e.1, listInsert e.2 v) :: rest else e :: dmAdd rest k v

/-- The side effect of a bare `m[k]` read on a `defaultdict(set)`: the default
`set()` is stored under `k` when the key is absent. -/
def dmTouch : DMap → String → DMap
  | [], k => [(k, [])]
  | e :: rest, k => if e.1 = k then e :: rest else e :: dmTouch rest k

/-- `DependencyGraph.__init__` state (`analyzer/dependency_analysis.py`,
lines 21-24): forward adjacency `imports`, reverse adjacency `imported_by`,
and the node set `all_files`. -/
structure DependencyGraph where
  imports : DMap
  imported_by : DMap
  all_files : DSet
  deriving DecidableEq, Repr

/-- The freshly constructed graph. -/
def DependencyGraph.empty : DependencyGraph := ⟨[], [], []⟩

/-- `DependencyGraph.add_dependency(from_file, to_file)`
(`analyzer/dependency_analysis.py`, lines 26-31): record the edge in both
adjacency directions and add both endpoints to `all_files`. -/
def add_dependency (g : DependencyGraph) (from_file to_file : String) :
    DependencyGraph where
  imports := dmAdd g.imports from_file to_file
  imported_by := dmAdd g.imported_by to_file from_file
  all_files := listInsert (listInsert g.all_files from_file) to_file

/-- A graph reachable by a sequence of `add_dependency` calls starting from a
fresh `DependencyGraph()`. -/
def buildGraph (edges : List (String × String)) : DependencyGraph :=
  edges.foldl (fun g e => add_dependency g e.1 e.2) DependencyGraph.empty

/-- `DependencyGraph.get_import_count(file_path)`
(`analyzer/dependency_analysis.py`, lines 33-35): `len(self.imported_by[file_path])`.
The `defaultdict` read also inserts an empty entry for an absent key, so the
result is the count paired with the post-call graph state. -/
def get_import_count (g : DependencyGraph) (file_path : String) :
    Nat × DependencyGraph :=
  ((dmGet g.imported_by file_path).length,
   { g with imported_by := dmTouch g.imported_by file_path })

/-! ### Basic lemmas about the defaultdict model -/

lemma mem_listInsert (l : DSet) (x y : String) :
    y ∈ listInsert l x ↔ y = x ∨ y ∈ l := by
  unfold listInsert
  by_cases h : x ∈ l
  · simp only [if_pos h]
    constructor
    · exact Or.inr
    · rintro (rfl | hy)
      · exact h
      · exact hy
  · simp [if_neg h, or_comm]

lemma dmGet_dmAdd (m : DMap) (k v k' : String) :
    dmGet (dmAdd m k v) k' =
      if k' = k then listInsert (dmGet m k) v else dmGet m k' := by
  induction m with
  | nil =>
    by_cases h : k' = k
    · subst h; simp [dmAdd, dmGet, listInsert]
    · simp [dmAdd, dmGet, h, Ne.symm h]
  | cons e rest ih =>
    by_cases hek : e.1 = k
    · by_cases hk' : k' = k
      · subst hk'; simp [dmAdd, dmGet, hek]
      · have h1 : ¬ e.1 = k' := fun h => hk' (h.symm.trans hek)
        simp [dmAdd, dmGet, hek, hk', h1, Ne.symm hk']
    · by_cases hk' : k' = k
      · subst hk'; simp [dmAdd, dmGet, hek, ih]
      · by_cases he' : e.1 = k'
        · simp [dmAdd, dmGet, hek, he', hk']
        · simp [dmAdd, dmGet, hek, he', ih, hk']

lemma dmGet_dmTouch (m : DMap) (k k' : String) :
    dmGet (dmTouch m k) k' = dmGet m k' := by
  induction m with
  | nil =>
    by_cases h : k = k'
    · subst h; simp [dmTouch, dmGet]
    · simp [dmTouch, dmGet, h]
  | cons e rest ih =>
    by_cases hek : e.1 = k
    · simp [dmTouch, hek]
    · by_cases he' : e.1 = k'
      · have h1 : ¬ k' = k := fun h => hek (he'.trans h)
        simp [dmTouch, dmGet, hek, he', h1]
      · by_cases h2 : k' = k
        · subst h2; simp [dmTouch, dmGet, hek, he', ih]
        · simp [dmTouch, dmGet, hek, he', h2, ih]

/-! ### C1: graph symmetry invariant -/

/-- The spec's invariant `b ∈ imports[a] ⇔ a ∈ importedBy[b]`. -/
def SymmInv (g : DependencyGraph) : Prop :=
  ∀ a b : String, b ∈ dmGet g.imports a ↔ a ∈ dmGet g.imported_by b

lemma symmInv_empty : SymmInv DependencyGraph.empty := by
  intro a b
  simp [DependencyGraph.empty, dmGet]

lemma symmInv_add {g : DependencyGraph} (h : SymmInv g) (x y : String) :
    SymmInv (add_dependency g x y) := by
  intro a b
  simp only [add_dependency, dmGet_dmAdd]
  by_cases hax : a = x
  · by_cases hby : b = y
    · subst hax; subst hby
      simp [mem_listInsert]
    · subst hax
      rw [if_pos rfl, if_neg hby, mem_listInsert]
      constructor
      · rintro (h1 | h2)
        · exact absurd h1 hby
        · exact (h a b).mp h2
      · intro hmem
        exact Or.inr ((h a b).mpr hmem)
  · by_cases hby : b = y
    · subst hby
      rw [if_neg hax, if_pos rfl, mem_listInsert]
      constructor
      · intro hmem
        exact Or.inr ((h a b).mp hmem)
      · rintro (h1 | h2)
        · exact absurd h1 hax
        · exact (h a b).mpr h2
    · rw [if_neg hax, if_neg hby]
      exact h a b

lemma symmInv_buildGraph (edges : List (String × String)) :
    SymmInv (buildGraph edges) := by
  suffices h : ∀ g, SymmInv g →
      SymmInv (edges.foldl (fun g e => add_dependency g e.1 e.2) g) by
    exact h DependencyGraph.empty symmInv_empty
  induction edges with
  | nil => intro g hg; exact hg
  | cons e rest ih =>
    intro g hg
    exact ih _ (symmInv_add hg e.1 e.2)

/-- C1.  Graph symmetry invariant: in every graph reachable by a sequence of
`add_dependency` calls, `b ∈ imports[a]` iff `a ∈ importedBy[b]`; and
immediately after `add_dependency(a, b)` both memberships hold. -/
theorem graph_symmetry_invariant (edges : List (String × String))
    (a b : String) :
    (b ∈ dmGet (buildGraph edges).imports a ↔
      a ∈ dmGet (buildGraph edges).imported_by b) ∧
    (b ∈ dmGet (add_dependency (buildGraph edges) a b).imports a ∧
      a ∈ dmGet (add_dependency (buildGraph edges) a b).imported_by b) := by
  refine ⟨symmInv_buildGraph edges a b, ?_, ?_⟩
  · simp [add_dependency, dmGet_dmAdd, mem_listInsert]
  · simp [add_dependency, dmGet_dmAdd, mem_listInsert]

/-! ### C10: totality of `get_import_count` -/

lemma dmGet_foldl_imported_by_of_notMem (edges : List (String × String))
    (f : String) (g : DependencyGraph) (h : f ∉ edges.map Prod.snd) :
    dmGet ((edges.foldl (fun g e => add_dependency g e.1 e.2) g)).imported_by f
      = dmGet g.imported_by f := by
  induction edges generalizing g with
  | nil => rfl
  | cons e rest ih =>
    simp only [List.map_cons, List.mem_cons] at h
    push_neg at h
    rw [List.foldl_cons, ih (add_dependency g e.1 e.2) h.2]
    simp [add_dependency, dmGet_dmAdd, h.1]

/-- C10.  `get_import_count` is total: for a file that was never the
`to`-argument of `add_dependency` it returns `0`, and the call leaves every
file's import count (the `imported_by` mapping, read through the defaultdict
semantics) unchanged. -/
theorem get_import_count_total (edges : List (String × String)) (f : String) :
    (f ∉ edges.map Prod.snd → (get_import_count (buildGraph edges) f).1 = 0) ∧
    (∀ f' : String,
      dmGet ((get_import_count (buildGraph edges) f).2).imported_by f' =
        dmGet (buildGraph edges).imported_by f') := by
  constructor
  · intro h
    have hempty : dmGet (buildGraph edges).imported_by f = [] := by
      have := dmGet_foldl_imported_by_of_notMem edges f DependencyGraph.empty h
      simpa [buildGraph, DependencyGraph.empty, dmGet] using this
    simp [get_import_count, hempty]
  · intro f'
    simp [get_import_count, dmGet_dmTouch]

/-- Witness for C10 at a concrete graph: `"c"` was never imported, so
its count is `0`. -/
theorem get_import_count_total_witness :
    (get_import_count (buildGraph [("a", "b")]) "c").1 = 0 :=
  (get_import_count_total [("a", "b")] "c").1 (by decide)

/-! ### C7: dependency-graph cache round-trip -/

/-- `save_dependency_graph_cache` (`analyzer/dependency_analysis.py`,
lines 161-173): the serialized payload `{k: list(v) for k, v in imports.items()}`.
The model already stores each set as a list in one fixed enumeration order, so
`list(v)` is that list. -/
def serializeImports (g : DependencyGraph) : List (String × List String) :=
  g.imports.map (fun e => (e.1, e.2))

/-- `load_cached_dependency_graph` (`analyzer/dependency_analysis.py`,
lines 140-159): reconstruct a fresh graph by calling `add_dependency` for every
`(from_file, to_file)` pair of the cached `imports` payload. -/
def rebuildGraph (data : List (String × List String)) : DependencyGraph :=
  data.foldl
    (fun (g : DependencyGraph) (e : String × List String) =>
      e.2.foldl (fun g' t => add_dependency g' e.1 t) g)
    DependencyGraph.empty

/-- The edge pairs contained in a serialized payload. -/
def pairsOf (data : List (String × List String)) : List (String × String) :=
  (data.map (fun e => e.2.map (fun t => (e.1, t)))).flatten

lemma mem_pairsOf (data : List (String × List String)) (a b : String) :
    (a, b) ∈ pairsOf data ↔ ∃ l, (a, l) ∈ data ∧ b ∈ l := by
  simp only [pairsOf, List.mem_flatten, List.mem_map]
  constructor
  · rintro ⟨l', ⟨e, he, rfl⟩, hmem⟩
    rcases List.mem_map.mp hmem with ⟨t, ht, hpair⟩
    injection hpair with h1 h2
    subst h2
    exact ⟨e.2, by rw [← h1]; exact he, ht⟩
  · rintro ⟨l, hl, hb⟩
    exact ⟨l.map (fun t => (a, t)), ⟨(a, l), hl, rfl⟩, List.mem_map_of_mem _ hb⟩

lemma mem_dmGet_innerFold (l : List String) (g : DependencyGraph)
    (k a b : String) :
    b ∈ dmGet (l.foldl (fun g' t => add_dependency g' k t) g).imports a ↔
      (a = k ∧ b ∈ l) ∨ b ∈ dmGet g.imports a := by
  induction l generalizing g with
  | nil => simp
  | cons t ts ih =>
    rw [List.foldl_cons, ih]
    by_cases hak : a = k
    · subst hak
      simp [add_dependency, dmGet_dmAdd, mem_listInsert]
      tauto
    · simp [add_dependency, dmGet_dmAdd, hak]

lemma mem_dmGet_outerFold (data : List (String × List String))
    (g : DependencyGraph) (a b : String) :
    b ∈ dmGet (data.foldl
      (fun (g : DependencyGraph) (e : String × List String) =>
        e.2.foldl (fun g' t => add_dependency g' e.1 t) g) g).imports a ↔
      (a, b) ∈ pairsOf data ∨ b ∈ dmGet g.imports a := by
  induction data generalizing g with
  | nil => simp [pairsOf]
  | cons e rest ih =>
    rw [List.foldl_cons, ih, mem_dmGet_innerFold]
    have hc : (a, b) ∈ pairsOf (e :: rest) ↔
        ((a, b) ∈ pairsOf rest ∨ (a = e.1 ∧ b ∈ e.2)) := by
      simp only [pairsOf, List.map_cons, List.flatten_cons, List.mem_append,
        List.mem_map]
      constructor
      · rintro (⟨t, ht, hpair⟩ | h)
        · injection hpair with h1 h2
          subst h2
          exact Or.inr ⟨h1.symm, ht⟩
        · exact Or.inl h
      · rintro (h | ⟨rfl, hb⟩)
        · exact Or.inr h
        · exact Or.inl ⟨b, hb, rfl⟩
    rw [hc]
    tauto

lemma mem_dmGet_rebuild (data : List (String × List String)) (a b : String) :
    b ∈ dmGet (rebuildGraph data).imports a ↔ (a, b) ∈ pairsOf data := by
  have := mem_dmGet_outerFold data DependencyGraph.empty a b
  simpa [rebuildGraph, DependencyGraph.empty, dmGet] using this

/-- Unique keys of an association list (Python dicts cannot repeat keys). -/
def KeysNodup (m : DMap) : Prop := (m.map Prod.fst).Nodup

lemma mem_keys_dmAdd (m : DMap) (k v x : String) :
    x ∈ (dmAdd m k v).map Prod.fst ↔ x ∈ m.map Prod.fst ∨ x = k := by
  induction m with
  | nil => simp [dmAdd]
  | cons e rest ih =>
    by_cases hek : e.1 = k
    · subst hek
      simp [dmAdd]
      tauto
    · simp only [dmAdd, if_neg hek, List.map_cons, List.mem_cons, ih]
      tauto

lemma keysNodup_dmAdd (m : DMap) (k v : String) (h : KeysNodup m) :
    KeysNodup (dmAdd m k v) := by
  induction m with
  | nil => simp [dmAdd, KeysNodup]
  | cons e rest ih =>
    rcases List.nodup_cons.mp h with ⟨hnot, hrest⟩
    by_cases hek : e.1 = k
    · simpa [dmAdd, hek, KeysNodup] using h
    · have htail : KeysNodup (dmAdd rest k v) := ih hrest
      have hnotmem : e.1 ∉ (dmAdd rest k v).map Prod.fst := by
        rw [mem_keys_dmAdd]
        rintro (hmem | heq)
        · exact hnot hmem
        · exact hek heq
      show KeysNodup ((dmAdd (e :: rest) k v))
      unfold KeysNodup
      simp only [dmAdd, if_neg hek, List.map_cons]
      exact List.nodup_cons.mpr ⟨hnotmem, htail⟩

lemma keysNodup_buildGraph_imports (edges : List (String × String)) :
    KeysNodup (buildGraph edges).imports := by
  suffices h : ∀ g, KeysNodup g.imports →
      KeysNodup ((edges.foldl (fun g e => add_dependency g e.1 e.2) g)).imports by
    exact h DependencyGraph.empty (by simp [DependencyGraph.empty, KeysNodup])
  induction edges with
  | nil => exact fun g hg => hg
  | cons e rest ih =>
    intro g hg
    exact ih _ (keysNodup_dmAdd _ _ _ hg)

lemma exists_entry_iff_dmGet (m : DMap) (h : KeysNodup m) (a b : String) :
    (∃ e, e ∈ m ∧ e.1 = a ∧ b ∈ e.2) ↔ b ∈ dmGet m a := by
  induction m with
  | nil => simp [dmGet]
  | cons e rest ih =>
    rcases List.nodup_cons.mp h with ⟨hnot, hrest⟩
    by_cases hea : e.1 = a
    · simp only [dmGet, if_pos hea]
      constructor
      · rintro ⟨e', he', hkey, hb⟩
        rcases List.mem_cons.mp he' with rfl | hmem
        · exact hb
        · exfalso
          apply hnot
          rw [hea, ← hkey]
          exact List.mem_map_of_mem _ hmem
      · intro hb
        exact ⟨e, List.mem_cons_self _ _, hea, hb⟩
    · simp only [dmGet, if_neg hea]
      rw [← ih hrest]
      constructor
      · rintro ⟨e', he', hkey, hb⟩
        rcases List.mem_cons.mp he' with rfl | hmem
        · exact absurd hkey hea
        · exact ⟨e', hmem, hkey, hb⟩
      · rintro ⟨e', he', hkey, hb⟩
        exact ⟨e', List.mem_cons_of_mem _ he', hkey, hb⟩

lemma mem_pairsOf_serialize (g : DependencyGraph) (a b : String) :
    (a, b) ∈ pairsOf (serializeImports g) ↔
      ∃ e, e ∈ g.imports ∧ e.1 = a ∧ b ∈ e.2 := by
  rw [mem_pairsOf]
  constructor
  · rintro ⟨l, hl, hb⟩
    rcases List.mem_map.mp hl with ⟨e, he, hpair⟩
    injection hpair with h1 h2
    subst h2
    exact ⟨e, he, h1, hb⟩
  · rintro ⟨e, he, hkey, hb⟩
    refine ⟨e.2, List.mem_map.mpr ⟨e, he, ?_⟩, hb⟩
    rw [hkey]

/-- C7.  Cache round-trip: serializing a reachable graph's `imports` mapping
and rebuilding a fresh graph from any payload holding the same set of
`(from, to)` pairs (list order irrelevant) reconstructs an `imports` mapping
with exactly the same membership. -/
theorem cache_round_trip (edges : List (String × String))
    (data : List (String × List String))
    (h1 : ∀ p ∈ pairsOf data, p ∈ pairsOf (serializeImports (buildGraph edges)))
    (h2 : ∀ p ∈ pairsOf (serializeImports (buildGraph edges)), p ∈ pairsOf data) :
    ∀ a b : String,
      b ∈ dmGet (rebuildGraph data).imports a ↔
        b ∈ dmGet (buildGraph edges).imports a := by
  intro a b
  rw [mem_dmGet_rebuild]
  have hiff : (a, b) ∈ pairsOf data ↔
      (a, b) ∈ pairsOf (serializeImports (buildGraph edges)) :=
    ⟨h1 _, h2 _⟩
  rw [hiff, mem_pairsOf_serialize]
  exact exists_entry_iff_dmGet _ (keysNodup_buildGraph_imports edges) a b

/-- Witness for C7: a two-edge graph serialized with the target list reversed
still rebuilds to the same `imports` membership. -/
theorem cache_round_trip_witness :
    (∀ p ∈ pairsOf [("a", ["c", "b"])],
      p ∈ pairsOf (serializeImports (buildGraph [("a", "b"), ("a", "c")]))) ∧
    ("b" ∈ dmGet (rebuildGraph [("a", ["c", "b"])]).imports "a" ↔
      "b" ∈ dmGet (buildGraph [("a", "b"), ("a", "c")]).imports "a") :=
  ⟨by decide, cache_round_trip [("a", "b"), ("a", "c")] [("a", ["c", "b"])]
    (by decide) (by decide) "a" "b"⟩

/-! ### Cycle detection (`analyzer/pattern_analysis.py`, lines 96-153) -/

/-- `graph.get(node, [])` on the plain `Dict[str, List[str]]` handed to
`PatternAnalyzer._detect_cyclic_dependencies`. -/
def pyGet : List (String × List String) → String → List String
  | [], _ => []
  | e :: rest, k => if e.1 = k then e.2 else pyGet rest k

/-- `list.index(x)`: index of the first occurrence (callers guarantee
membership). -/
def pyIndex (x : String) : List String → Nat
  | [] => 0
  | y :: ys => if y = x then 0 else pyIndex x ys + 1

/-- The recursive `dfs(node, path)` of `_detect_cyclic_dependencies`
(lines 111-130).  Each child receives a copy of the path (`path[:]`), so
`recursion_stack` always holds exactly the nodes of the current `path`;
membership in `path` therefore models the `recursion_stack` test.  The mutable
`visited` set and `cycles` list are threaded as state.  `fuel` bounds the
recursion depth; the path never repeats a node, so depth is bounded by the
number of distinct nodes and the fuel supplied by `rawCycles` never runs out. -/
def dfs (g : List (String × List String)) :
    Nat → String → List String → List String → List (List String) →
    List String × List (List String)
  | 0, _, _, visited, cycles => (visited, cycles)
  | fuel + 1, node, path, visited, cycles =>
    if node ∈ path then
      (visited, cycles ++ [path.drop (pyIndex node path) ++ [node]])
    else if node ∈ visited then
      (visited, cycles)
    else
      (pyGet g node).foldl
        (fun vc nbr => dfs g fuel nbr (path ++ [node]) vc.1 vc.2)
        (visited ++ [node], cycles)

/-- Fuel that dominates the DFS depth: more than the number of node
occurrences in the adjacency representation. -/
def dfsFuel (g : List (String × List String)) : Nat :=
  ((g.map Prod.fst) ++ (g.map Prod.snd).flatten).length + 1

/-- The driver loop (lines 132-135): `for node in graph: if node not in
visited: dfs(node, [])`, collecting the raw (untrimmed, undeduplicated)
cycles. -/
def rawCycles (g : List (String × List String)) : List (List String) :=
  ((g.map Prod.fst).foldl
    (fun vc node =>
      if node ∈ vc.1 then vc else dfs g (dfsFuel g) node [] vc.1 vc.2)
    ([], [])).2

/-- Python `<` on characters: comparison of unicode code points. -/
def pyCharLt (a b : Char) : Bool := Nat.blt a.toNat b.toNat

/-- Python `<` on strings: lexicographic by code point, a strict prefix is
smaller. -/
def pyStrLtAux : List Char → List Char → Bool
  | [], [] => false
  | [], _ :: _ => true
  | _ :: _, [] => false
  | a :: as, b :: bs =>
    if pyCharLt a b then true else if pyCharLt b a then false else pyStrLtAux as bs

/-- Python `<` on strings. -/
def pyStrLt (a b : String) : Bool := pyStrLtAux a.data b.data

/-- Python list `<` (elementwise lexicographic, a strict prefix is smaller),
used by `min(...)` over cycle rotations. -/
def pyListLt : List String → List String → Bool
  | [], [] => false
  | [], _ :: _ => true
  | _ :: _, [] => false
  | a :: as, b :: bs =>
    if pyStrLt a b then true else if pyStrLt b a then false else pyListLt as bs

/-- The generator `cycle[i:] + cycle[:i] for i in range(len(cycle) - 1)`
(line 146). -/
def rotationsList (cycle : List String) : List (List String) :=
  (List.range (cycle.length - 1)).map (fun i => cycle.drop i ++ cycle.take i)

/-- Python `min` over a nonempty list: the first minimal element.  (`min()`
on an empty sequence raises; the program only applies it to cycles of length
`≥ 2`, whose rotation list is nonempty.  The `[]` default is unreachable.) -/
def pyMin : List (List String) → List String
  | [] => []
  | x :: xs => xs.foldl (fun acc y => if pyListLt y acc then y else acc) x

/-- One iteration of the dedup loop (lines 141-151): skip cycles of raw length
`≤ 1`; compute `min_rotation` of the *untrimmed* cycle; key is that rotation
without its last element; append `cycle[:-1]` when the key is new.  State is
`(unique_cycles, seen_cycles)` (the seen set as an insertion-ordered list). -/
def dedupStep (acc : List (List String) × List (List String))
    (cycle : List String) : List (List String) × List (List String) :=
  if cycle.length ≤ 1 then acc
  else
    let key := (pyMin (rotationsList cycle)).dropLast
    if key ∈ acc.2 then acc
    else (acc.1 ++ [cycle.dropLast], acc.2 ++ [key])

/-- The dedup pass over the raw cycles (lines 137-152). -/
def dedupCycles (cycles : List (List String)) : List (List String) :=
  (cycles.foldl dedupStep ([], [])).1

/-- `PatternAnalyzer._detect_cyclic_dependencies(graph)`: DFS enumeration
followed by normalization/deduplication. -/
def findCycles (g : List (String × List String)) : List (List String) :=
  dedupCycles (rawCycles g)

/-- The dedup key the code associates with a reported (trimmed) cycle `c`:
the key of its untrimmed form `c ++ [c.head]`. -/
def cycleKey (c : List String) : List String :=
  (pyMin (rotationsList (c ++ [c.headD ""]))).dropLast

/-- Modelled from the spec's words, for comparison only (§4.3: "rotating the
cycle to start at its lexicographically smallest member"): the smallest
rotation of the *trimmed* cycle. -/
def specNormalize (cycle : List String) : List String :=
  pyMin ((List.range cycle.length).map (fun i => cycle.drop i ++ cycle.take i))

/-- C2 counterexample.  On the 3-cycle discovered from `"c"` the reported
entry is the trimmed cycle in discovery order `["c","b","a"]`, not the
spec-normalized rotation `["a","c","b"]`; and a self-loop graph reports the
singleton cycle `["a"]` instead of discarding it (the `len(cycle) <= 1` guard
runs before trimming, and raw cycles always have length `≥ 2`). -/
theorem cycle_normalization_counterexample :
    findCycles [("c", ["b"]), ("b", ["a"]), ("a", ["c"])] = [["c", "b", "a"]] ∧
    specNormalize ["c", "b", "a"] = ["a", "c", "b"] ∧
    (["c", "b", "a"] : List String) ≠ ["a", "c", "b"] ∧
    findCycles [("a", ["a"])] = [["a"]] := by decide

/-- C3 counterexample.  Two adjacency representations of the same abstract
graph (a permutation of the entries, i.e. a different visitation order)
produce different numbers of normalized cycles: starting at `"a"` finds both
the 2-cycle and the 3-cycle, starting at `"b"` finds only the 2-cycle. -/
theorem cycle_order_dependence_counterexample :
    (([("a", ["b"]), ("b", ["a", "c"]), ("c", ["a"])] :
        List (String × List String)).Perm
      [("b", ["a", "c"]), ("a", ["b"]), ("c", ["a"])]) ∧
    (findCycles [("a", ["b"]), ("b", ["a", "c"]), ("c", ["a"])]).length = 2 ∧
    (findCycles [("b", ["a", "c"]), ("a", ["b"]), ("c", ["a"])]).length = 1 := by
  decide

/-! ### Invariants of the DFS cycle enumeration -/

/-- Every cycle the DFS records: raw length at least 2, first node equals the
closing node, and consecutive nodes are joined by graph edges. -/
def GoodCycle (g : List (String × List String)) (u : List String) : Prop :=
  2 ≤ u.length ∧ u.head? = u.getLast? ∧
    List.Chain' (fun a b => b ∈ pyGet g a) u

lemma pyIndex_drop_cons (x : String) (l : List String) (h : x ∈ l) :
    ∃ t, l.drop (pyIndex x l) = x :: t := by
  induction l with
  | nil => cases h
  | cons y ys ih =>
    by_cases hyx : y = x
    · exact ⟨ys, by simp [pyIndex, hyx]⟩
    · rcases List.mem_cons.mp h with rfl | hmem
      · exact absurd rfl hyx
      · rcases ih hmem with ⟨t, ht⟩
        exact ⟨t, by simp [pyIndex, hyx, ht]⟩

lemma recorded_goodCycle (g : List (String × List String)) (node : String)
    (path : List String) (hmem : node ∈ path)
    (hchain : List.Chain' (fun a b => b ∈ pyGet g a) (path ++ [node])) :
    GoodCycle g (path.drop (pyIndex node path) ++ [node]) := by
  obtain ⟨t, ht⟩ := pyIndex_drop_cons node path hmem
  refine ⟨?_, ?_, ?_⟩
  · rw [ht]
    simp
  · rw [ht]
    show ((node :: t) ++ [node]).head? = ((node :: t) ++ [node]).getLast?
    rw [List.getLast?_concat]
    simp
  · have hsuf : path.drop (pyIndex node path) ++ [node] <:+ path ++ [node] := by
      obtain ⟨p, hp⟩ := List.drop_suffix (pyIndex node path) path
      exact ⟨p, by rw [← List.append_assoc, hp]⟩
    exact hchain.suffix hsuf

lemma chain_snoc (g : List (String × List String)) {l : List String}
    {a b : String}
    (h : List.Chain' (fun x y => y ∈ pyGet g x) (l ++ [a]))
    (hab : b ∈ pyGet g a) :
    List.Chain' (fun x y => y ∈ pyGet g x) ((l ++ [a]) ++ [b]) := by
  rw [List.chain'_append]
  refine ⟨h, List.chain'_singleton b, ?_⟩
  intro x hx y hy
  simp only [List.head?_cons, Option.mem_def, Option.some.injEq] at hy
  subst hy
  rw [List.getLast?_concat] at hx
  simp only [Option.mem_def, Option.some.injEq] at hx
  subst hx
  exact hab

lemma dfs_foldl_preserves_good (g : List (String × List String)) (fuel : Nat)
    (ih : ∀ node path visited cycles,
      List.Chain' (fun a b => b ∈ pyGet g a) (path ++ [node]) →
      (∀ u ∈ cycles, GoodCycle g u) →
      ∀ u ∈ (dfs g fuel node path visited cycles).2, GoodCycle g u) :
    ∀ (nbrs : List String) (node : String) (path : List String)
      (vc : List String × List (List String)),
      (∀ nbr ∈ nbrs, nbr ∈ pyGet g node) →
      List.Chain' (fun a b => b ∈ pyGet g a) (path ++ [node]) →
      (∀ u ∈ vc.2, GoodCycle g u) →
      ∀ u ∈ (nbrs.foldl
        (fun vc nbr => dfs g fuel nbr (path ++ [node]) vc.1 vc.2) vc).2,
        GoodCycle g u := by
  intro nbrs
  induction nbrs with
  | nil => intro node path vc _ _ hvc u hu; exact hvc u hu
  | cons nbr rest ihn =>
    intro node path vc hnbrs hchain hvc u hu
    rw [List.foldl_cons] at hu
    have hedge : nbr ∈ pyGet g node := hnbrs nbr (List.mem_cons_self _ _)
    have hchain' : List.Chain' (fun a b => b ∈ pyGet g a)
        ((path ++ [node]) ++ [nbr]) := chain_snoc g hchain hedge
    have hstep : ∀ u ∈ (dfs g fuel nbr (path ++ [node]) vc.1 vc.2).2,
        GoodCycle g u := ih nbr (path ++ [node]) vc.1 vc.2 hchain' hvc
    exact ihn node path _ (fun x hx => hnbrs x (List.mem_cons_of_mem _ hx))
      hchain hstep u hu

lemma dfs_preserves_good (g : List (String × List String)) :
    ∀ (fuel : Nat) (node : String) (path visited : List String)
      (cycles : List (List String)),
      List.Chain' (fun a b => b ∈ pyGet g a) (path ++ [node]) →
      (∀ u ∈ cycles, GoodCycle g u) →
      ∀ u ∈ (dfs g fuel node path visited cycles).2, GoodCycle g u := by
  intro fuel
  induction fuel with
  | zero => intro node path visited cycles _ hc u hu; exact hc u hu
  | succ fuel ih =>
    intro node path visited cycles hchain hc u hu
    by_cases hmem : node ∈ path
    · simp only [dfs, if_pos hmem] at hu
      rcases List.mem_append.mp hu with h1 | h2
      · exact hc u h1
      · rw [List.mem_singleton] at h2
        subst h2
        exact recorded_goodCycle g node path hmem hchain
    · by_cases hvis : node ∈ visited
      · simp only [dfs, if_neg hmem, if_pos hvis] at hu
        exact hc u hu
      · simp only [dfs, if_neg hmem, if_neg hvis] at hu
        exact dfs_foldl_preserves_good g fuel ih (pyGet g node) node path
          (visited ++ [node], cycles) (fun _ hx => hx) hchain hc u hu

lemma rawCycles_good (g : List (String × List String)) :
    ∀ u ∈ rawCycles g, GoodCycle g u := by
  suffices h : ∀ (keys : List String) (vc : List String × List (List String)),
      (∀ u ∈ vc.2, GoodCycle g u) →
      ∀ u ∈ (keys.foldl
        (fun vc node =>
          if node ∈ vc.1 then vc else dfs g (dfsFuel g) node [] vc.1 vc.2)
        vc).2, GoodCycle g u by
    intro u hu
    exact h (g.map Prod.fst) ([], []) (by intro u hu; cases hu) u hu
  intro keys
  induction keys with
  | nil => intro vc hvc u hu; exact hvc u hu
  | cons node rest ih =>
    intro vc hvc u hu
    rw [List.foldl_cons] at hu
    by_cases hv : node ∈ vc.1
    · rw [if_pos hv] at hu
      exact ih vc hvc u hu
    · rw [if_neg hv] at hu
      have hchain : List.Chain' (fun a b => b ∈ pyGet g a) ([] ++ [node]) := by
        simp
      have hstep : ∀ u ∈ (dfs g (dfsFuel g) node [] vc.1 vc.2).2,
          GoodCycle g u :=
        dfs_preserves_good g (dfsFuel g) node [] vc.1 vc.2 hchain hvc
      exact ih _ hstep u hu

/-! ### The dedup pass -/

lemma headD_dropLast (u : List String) (h : 2 ≤ u.length) :
    u.dropLast.headD "" = u.headD "" := by
  match u with
  | [] => simp at h
  | [a] => simp at h
  | a :: b :: t => rfl

lemma shape_eq {u : List String} (h2 : 2 ≤ u.length)
    (hh : u.head? = u.getLast?) :
    u.dropLast ++ [u.dropLast.headD ""] = u := by
  have hne : u ≠ [] := by
    intro heq
    subst heq
    simp at h2
  rw [headD_dropLast u h2]
  have h3 : u.headD "" = u.getLast hne := by
    rw [List.getLast?_eq_getLast u hne] at hh
    cases u with
    | nil => exact absurd rfl hne
    | cons a t =>
      simp only [List.head?_cons] at hh
      simpa [List.headD] using Option.some.inj hh
  rw [h3]
  exact List.dropLast_append_getLast hne

lemma dedup_foldl_inv (P : List String → Prop)
    (hP : ∀ u, P u → 2 ≤ u.length ∧ u.head? = u.getLast?) :
    ∀ (cycles : List (List String))
      (acc : List (List String) × List (List String)),
      (∀ u ∈ cycles, P u) →
      (acc.2 = acc.1.map cycleKey) →
      acc.2.Nodup →
      (∀ c ∈ acc.1, ∃ u, P u ∧ c = u.dropLast) →
      ((cycles.foldl dedupStep acc).2 =
        (cycles.foldl dedupStep acc).1.map cycleKey) ∧
      (cycles.foldl dedupStep acc).2.Nodup ∧
      (∀ c ∈ (cycles.foldl dedupStep acc).1, ∃ u, P u ∧ c = u.dropLast) := by
  intro cycles
  induction cycles with
  | nil => intro acc _ h1 h2 h3; exact ⟨h1, h2, h3⟩
  | cons u us ih =>
    intro acc hall h1 h2 h3
    rw [List.foldl_cons]
    have hu : P u := hall u (List.mem_cons_self _ _)
    obtain ⟨hlen, hsh⟩ := hP u hu
    have hkey : (pyMin (rotationsList u)).dropLast = cycleKey u.dropLast := by
      unfold cycleKey
      rw [shape_eq hlen hsh]
    have hguard : ¬ u.length ≤ 1 := by omega
    by_cases hseen : (pyMin (rotationsList u)).dropLast ∈ acc.2
    · have heq : dedupStep acc u = acc := by
        simp only [dedupStep, if_neg hguard, if_pos hseen]
      rw [heq]
      exact ih acc (fun x hx => hall x (List.mem_cons_of_mem _ hx)) h1 h2 h3
    · have heq : dedupStep acc u =
          (acc.1 ++ [u.dropLast],
           acc.2 ++ [(pyMin (rotationsList u)).dropLast]) := by
        simp only [dedupStep, if_neg hguard, if_neg hseen]
      rw [heq]
      apply ih _ (fun x hx => hall x (List.mem_cons_of_mem _ hx))
      · rw [h1, hkey, List.map_append]
        rfl
      · rw [List.nodup_append]
        refine ⟨h2, List.nodup_singleton _, ?_⟩
        intro x hx hx'
        rw [List.mem_singleton] at hx'
        subst hx'
        exact hseen hx
      · intro c hc
        rcases List.mem_append.mp hc with hc1 | hc2
        · exact h3 c hc1
        · rw [List.mem_singleton] at hc2
          subst hc2
          exact ⟨u, hu, rfl⟩

lemma findCycles_entries (g : List (String × List String)) :
    (∀ c ∈ findCycles g,
      ∃ u, (u ∈ rawCycles g ∧ GoodCycle g u) ∧ c = u.dropLast) ∧
    ((findCycles g).map cycleKey).Nodup := by
  have h := dedup_foldl_inv (fun u => u ∈ rawCycles g ∧ GoodCycle g u)
    (fun u hu => ⟨hu.2.1, hu.2.2.1⟩) (rawCycles g) ([], [])
    (fun u hu => ⟨hu, rawCycles_good g u hu⟩) rfl (List.nodup_nil)
    (by intro c hc; cases hc)
  obtain ⟨hmap, hnodup, hentries⟩ := h
  refine ⟨?_, ?_⟩
  · intro c hc
    exact hentries c hc
  · have : findCycles g = ((rawCycles g).foldl dedupStep ([], [])).1 := rfl
    rw [this, ← hmap]
    exact hnodup

/-- C2 (amended).  The dedup pass reports each surviving cycle as the recorded
cycle with its repeated last node dropped, in discovery order (not rotated);
the dedup key is the lexicographically smallest rotation of the *untrimmed*
recorded cycle with its final element dropped; the untrimmed-length guard
`len(cycle) <= 1` never fires (recorded cycles have length ≥ 2, so self-loops
are reported as singletons); and no two reported cycles share a dedup key. -/
theorem cycle_normalization_amended (g : List (String × List String)) :
    (∀ c ∈ findCycles g, ∃ u, u ∈ rawCycles g ∧ 2 ≤ u.length ∧
      u.head? = u.getLast? ∧ c = u.dropLast) ∧
    ((findCycles g).map cycleKey).Nodup := by
  refine ⟨?_, (findCycles_entries g).2⟩
  intro c hc
  obtain ⟨u, ⟨hmem, hgood⟩, hdrop⟩ := (findCycles_entries g).1 c hc
  exact ⟨u, hmem, hgood.1, hgood.2.1, hdrop⟩

/-- Witness for the amended C2 at the 2-cycle graph `a ⇄ b`. -/
theorem cycle_normalization_amended_witness :
    ∃ u, u ∈ rawCycles [("a", ["b"]), ("b", ["a"])] ∧ 2 ≤ u.length ∧
      u.head? = u.getLast? ∧ (["a", "b"] : List String) = u.dropLast :=
  (cycle_normalization_amended [("a", ["b"]), ("b", ["a"])]).1 ["a", "b"]
    (by decide)

/-- C3 (amended).  Cycle detection is a pure function of the ordered adjacency
representation, and under every representation each reported cycle is a
genuine directed cycle of the graph: closing it with its own first node gives
a chain of edges.  (The output is *not* invariant under permutations of the
adjacency entries — see the counterexample.) -/
theorem cycle_detection_sound (g : List (String × List String)) :
    ∀ c ∈ findCycles g, c ≠ [] ∧
      List.Chain' (fun a b => b ∈ pyGet g a) (c ++ [c.headD ""]) := by
  intro c hc
  obtain ⟨u, ⟨_, h2, hh, hchain⟩, hdrop⟩ := (findCycles_entries g).1 c hc
  subst hdrop
  constructor
  · have : u.dropLast.length = u.length - 1 := List.length_dropLast u
    intro heq
    rw [heq] at this
    simp at this
    omega
  · rw [shape_eq h2 hh]
    exact hchain

/-- Witness for the amended C3 at the 2-cycle graph `a ⇄ b`. -/
theorem cycle_detection_sound_witness :
    (["a", "b"] : List String) ≠ [] ∧
      List.Chain' (fun a b => b ∈ pyGet [("a", ["b"]), ("b", ["a"])] a)
        ((["a", "b"] : List String) ++ [(["a", "b"] : List String).headD ""]) :=
  cycle_detection_sound [("a", ["b"]), ("b", ["a"])] ["a", "b"] (by decide)

/-! ### C4: circular-dependency findings
(`analyzer/architectural_analysis.py`, lines 142-188, and
`analyzer/smell_factory.py`) -/

/-- `os.path.basename` / `pathlib.Path(...).name`: the component after the
last `/` (POSIX separator). -/
def pyBasename (s : String) : String :=
  String.mk ((s.data.reverse.takeWhile (fun c => c != '/')).reverse)

/-- The smell dictionary produced by `smell_factory.create_smell`. -/
structure FSmell where
  type : String
  file : String
  message : String
  severity : String
  category : String
  line : String
  deriving DecidableEq, Repr

/-- `create_smell(smell_type, file_path, message, severity, category, line)`:
`line` is stored as the number, or the sentinel `"N/A"` when absent (the model
renders a present line number as its decimal string). -/
def create_smell (smell_type : String) (file_path : String) (message : String)
    (severity : String) (category : String) (line : Option Nat) : FSmell where
  type := smell_type
  file := file_path
  message := message
  severity := severity
  category := category
  line := match line with
    | some n => toString n
    | none => "N/A"

/-- The dict `ArchitecturalSniffer.analyze_architecture` hands to
`PatternAnalyzer.analyze_patterns`: the graph's `imports` mapping with each
set enumerated as a list (`architectural_analysis.py`, line 115, and the
`graph_dict` conversion in `pattern_analysis.py`, lines 59-69). -/
def graphDict (g : DependencyGraph) : List (String × List String) :=
  g.imports.map (fun e => (e.1, e.2))

/-- The `CIRCULAR_DEPENDENCY` findings emitted by
`_convert_patterns_to_smells` (`architectural_analysis.py`, lines 154-164):
one `create_smell` per cycle in the detected pattern's `details`, with the
ordered basenames joined by `" -> "`.  When `findCycles` is empty the pattern
carries `detected: False` and no finding is emitted, which coincides with
mapping over the empty list. -/
def circularSmells (graph : List (String × List String)) : List FSmell :=
  (findCycles graph).map (fun cycle =>
    create_smell "CIRCULAR_DEPENDENCY" (cycle.headD "")
      ("Circular dependency detected: " ++
        String.intercalate " -> " (cycle.map pyBasename))
      "High" "Architectural Smell" none)

/-- C4.  One finding per deduplicated cycle, each with severity `"High"` and a
message joining the cycle's ordered basenames with an arrow; and on the
three-file cycle `a.py → b.py → c.py → a.py` exactly one finding is emitted,
for the single normalized cycle of length 3 naming all three basenames. -/
theorem circular_dependency_findings (g : List (String × List String)) :
    (circularSmells g).length = (findCycles g).length ∧
    (∀ s ∈ circularSmells g, s.severity = "High" ∧
      s.type = "CIRCULAR_DEPENDENCY" ∧
      ∃ c ∈ findCycles g,
        s.message = "Circular dependency detected: " ++
          String.intercalate " -> " (c.map pyBasename) ∧ s.file = c.headD "") ∧
    (findCycles (graphDict (buildGraph
      [("a.py", "b.py"), ("b.py", "c.py"), ("c.py", "a.py")]))
      = [["a.py", "b.py", "c.py"]]) ∧
    (circularSmells (graphDict (buildGraph
      [("a.py", "b.py"), ("b.py", "c.py"), ("c.py", "a.py")]))
      = [{ type := "CIRCULAR_DEPENDENCY", file := "a.py",
           message := "Circular dependency detected: a.py -> b.py -> c.py",
           severity := "High", category := "Architectural Smell",
           line := "N/A" }]) := by
  refine ⟨List.length_map _ _, ?_, by decide, by decide⟩
  intro s hs
  rcases List.mem_map.mp hs with ⟨c, hc, rfl⟩
  exact ⟨rfl, rfl, c, hc, rfl, rfl⟩

/-- Witness for C4 on the three-file cycle: the emitted finding has severity
`"High"` and its message joins the basenames. -/
theorem circular_dependency_findings_witness :
    ∃ c ∈ findCycles (graphDict (buildGraph
      [("a.py", "b.py"), ("b.py", "c.py"), ("c.py", "a.py")])),
      ({ type := "CIRCULAR_DEPENDENCY", file := "a.py",
         message := "Circular dependency detected: a.py -> b.py -> c.py",
         severity := "High", category := "Architectural Smell",
         line := "N/A" } : FSmell).message =
        "Circular dependency detected: " ++
          String.intercalate " -> " (c.map pyBasename) ∧
      ({ type := "CIRCULAR_DEPENDENCY", file := "a.py",
         message := "Circular dependency detected: a.py -> b.py -> c.py",
         severity := "High", category := "Architectural Smell",
         line := "N/A" } : FSmell).file = c.headD "" :=
  ((circular_dependency_findings (graphDict (buildGraph
      [("a.py", "b.py"), ("b.py", "c.py"), ("c.py", "a.py")]))).2.1 _
    (by decide)).2.2

/-! ### C5: boundary violations
(`project_analyzer.py`, lines 573-603) -/

/-- Python `needle in hay` on strings: substring test. -/
def listContainsSub (needle : List Char) : List Char → Bool
  | [] => needle.isEmpty
  | c :: cs => needle.isPrefixOf (c :: cs) || listContainsSub needle cs

/-- Python `needle in hay` on strings. -/
def pyIn (needle hay : String) : Bool := listContainsSub needle.data hay.data

/-- Python `str.title()` (ASCII behaviour): a letter is uppercased when the
previous character is not a letter, lowercased otherwise. -/
def pyTitleAux : List Char → Bool → List Char
  | [], _ => []
  | c :: cs, prevAlpha =>
    (if c.isAlpha then (if prevAlpha then c.toLower else c.toUpper) else c) ::
      pyTitleAux cs c.isAlpha

/-- Python `str.title()` (ASCII behaviour). -/
def pyTitle (s : String) : String := String.mk (pyTitleAux s.data false)

/-- One entry of `config['architecture_rules']`:
`{layer, path, cannot_be_imported_by}`.  The forbidden-layer collection is
`set(...)` in the code; it is modelled as the configured list (one fixed
iteration order of the set). -/
structure LayerRule where
  layer : String
  path : String
  cannot_be_imported_by : List String
  deriving DecidableEq, Repr

/-- `ArchitecturalSniffer._get_layer_path` (`project_analyzer.py`,
lines 597-603): path of the first rule defining the layer, else `None`. -/
def get_layer_path (rules : List LayerRule) (layer_name : String) :
    Option String :=
  match rules.find? (fun r => r.layer == layer_name) with
  | some r => some r.path
  | none => none

/-- The smell dictionaries appended by the `ArchitecturalSniffer` checks in
`project_analyzer.py` (boundary violation and blast radius). -/
structure PSmell where
  type : String
  severity : String
  file : String
  target : Option String
  count : Option Nat
  message : String
  deriving DecidableEq, Repr

/-- The boundary-violation smell (`project_analyzer.py`, lines 589-595). -/
def boundarySmell (layer_name layer_file importing_file forbidden_layer :
    String) : PSmell where
  type := "BOUNDARY_VIOLATION"
  severity := "high"
  file := importing_file
  target := some layer_file
  count := none
  message := "'" ++ pyBasename importing_file ++ "' is importing from '" ++
    pyBasename layer_file ++ "'. " ++ pyTitle forbidden_layer ++
    " layer must not depend on " ++ layer_name ++ " layer."

/-- `ArchitecturalSniffer._check_boundary_violations` (`project_analyzer.py`,
lines 573-595): for each rule, each file under the rule's path substring, each
of its importers and each forbidden layer, emit a smell when the forbidden
layer's own configured path is truthy (non-`None`, non-empty) and is a
substring of the importer.  The defaultdict read of `imported_by` only ever
inserts empty entries, which cannot change any set that is read. -/
def checkBoundaryViolations (rules : List LayerRule) (g : DependencyGraph) :
    List PSmell :=
  (rules.map (fun rule =>
    ((g.all_files.filter (fun f => pyIn rule.path f)).map (fun layer_file =>
      ((dmGet g.imported_by layer_file).map (fun importing_file =>
        rule.cannot_be_imported_by.filterMap (fun forbidden_layer =>
          match get_layer_path rules forbidden_layer with
          | some fp =>
            if fp != "" && pyIn fp importing_file then
              some (boundarySmell rule.layer layer_file importing_file
                forbidden_layer)
            else none
          | none => none))).flatten)).flatten)).flatten

/-- C5 counterexample.  With the single rule
`{layer: "domain", path: "domain/", cannot_be_imported_by: ["ui"]}` and the
edge `ui/widget.py → domain/core.py`, the detector emits *no* finding: the
forbidden layer `"ui"` has no rule of its own, so `_get_layer_path("ui")`
returns `None` and the guard skips the pair. -/
theorem boundary_violation_counterexample :
    checkBoundaryViolations [⟨"domain", "domain/", ["ui"]⟩]
      (buildGraph [("ui/widget.py", "domain/core.py")]) = [] := by decide

/-- C6-and-C5 shared scenario rules: the forbidden layer must itself be
configured with a path for the detector to fire. -/
def scenarioRules : List LayerRule :=
  [⟨"domain", "domain/", ["ui"]⟩, ⟨"ui", "ui/", []⟩]

/-- C5 (amended).  A boundary finding is emitted for every (rule, layer file,
importer, forbidden layer) combination in which the forbidden layer's *own
configured* path is non-empty and a substring of the importer; and in the
scenario extended with a rule defining the `ui` layer's path, exactly one
high-severity finding naming both files (and both layer names in its message)
is emitted. -/
theorem boundary_violation_amended :
    (∀ (rules : List LayerRule) (g : DependencyGraph) (rule : LayerRule)
      (layer_file importing_file forbidden fp : String),
      rule ∈ rules →
      layer_file ∈ g.all_files →
      pyIn rule.path layer_file = true →
      importing_file ∈ dmGet g.imported_by layer_file →
      forbidden ∈ rule.cannot_be_imported_by →
      get_layer_path rules forbidden = some fp →
      fp ≠ "" →
      pyIn fp importing_file = true →
      boundarySmell rule.layer layer_file importing_file forbidden ∈
        checkBoundaryViolations rules g) ∧
    (checkBoundaryViolations scenarioRules
      (buildGraph [("ui/widget.py", "domain/core.py")]) =
      [{ type := "BOUNDARY_VIOLATION", severity := "high",
         file := "ui/widget.py", target := some "domain/core.py",
         count := none,
         message := "'widget.py' is importing from 'core.py'. Ui layer must not depend on domain layer." }]) := by
  constructor
  · intro rules g rule layer_file importing_file forbidden fp hrule hfile hpath
      himp hforb hlayer hfp hin
    unfold checkBoundaryViolations
    rw [List.mem_flatten]
    refine ⟨_, List.mem_map_of_mem _ hrule, ?_⟩
    rw [List.mem_flatten]
    refine ⟨_, List.mem_map_of_mem _ (List.mem_filter.mpr ⟨hfile, hpath⟩), ?_⟩
    rw [List.mem_flatten]
    refine ⟨_, List.mem_map_of_mem _ himp, ?_⟩
    rw [List.mem_filterMap]
    refine ⟨forbidden, hforb, ?_⟩
    rw [hlayer]
    have hcond : (fp != "" && pyIn fp importing_file) = true := by
      rw [Bool.and_eq_true, bne_iff_ne]
      exact ⟨hfp, hin⟩
    simp [hcond]
  · decide

/-- Witness for the amended C5, instantiated on the two-rule scenario. -/
theorem boundary_violation_amended_witness :
    boundarySmell "domain" "domain/core.py" "ui/widget.py" "ui" ∈
      checkBoundaryViolations scenarioRules
        (buildGraph [("ui/widget.py", "domain/core.py")]) :=
  boundary_violation_amended.1 scenarioRules
    (buildGraph [("ui/widget.py", "domain/core.py")])
    ⟨"domain", "domain/", ["ui"]⟩ "domain/core.py" "ui/widget.py" "ui" "ui/"
    (by decide) (by decide) (by decide) (by decide) (by decide) (by decide)
    (by decide) (by decide)

/-! ### C6: blast radius
(`project_analyzer.py`, lines 634-663) -/

/-- The informational smell for utility files (lines 647-653). -/
def utilitySmell (fp : String) (n : Nat) : PSmell where
  type := "BLAST_RADIUS"
  severity := "low"
  file := fp
  target := none
  count := some n
  message := "ℹ️  Utility '" ++ pyBasename fp ++ "' is imported by " ++
    toString n ++ " modules (as expected)."

/-- The smell for core files (lines 655-663); `sev` is `"high"` when the
count reaches twice the threshold, else `"medium"`. -/
def coreSmell (fp : String) (n : Nat) (sev : String) : PSmell where
  type := "BLAST_RADIUS"
  severity := sev
  file := fp
  target := none
  count := some n
  message := "Core file '" ++ pyBasename fp ++ "' is imported by " ++
    toString n ++ " modules. Changes are high-risk."

/-- One iteration of `_check_blast_radius` over `all_files`: read the import
count (a defaultdict read, which may insert an empty entry — the graph state
is threaded), compare against the threshold, and classify by the utility
patterns (`_matches_pattern` delegates to `fnmatch.fnmatch`, an external
stdlib primitive, taken here as the parameter `fm`). -/
def blastStep (thr : Nat) (up : List String)
    (fm : String → String → Bool)
    (st : DependencyGraph × List PSmell) (file_path : String) :
    DependencyGraph × List PSmell :=
  if thr ≤ (get_import_count st.1 file_path).1 then
    if up.any (fun p => fm file_path p) then
      ((get_import_count st.1 file_path).2,
       st.2 ++ [utilitySmell file_path (get_import_count st.1 file_path).1])
    else
      ((get_import_count st.1 file_path).2,
       st.2 ++ [coreSmell file_path (get_import_count st.1 file_path).1
         (if 2 * thr ≤ (get_import_count st.1 file_path).1 then "high"
          else "medium")])
  else ((get_import_count st.1 file_path).2, st.2)

/-- `ArchitecturalSniffer._check_blast_radius` (`project_analyzer.py`,
lines 634-663): fold over `all_files`, collecting the smells. -/
def checkBlastRadius (thr : Nat) (up : List String)
    (fm : String → String → Bool) (g : DependencyGraph) : List PSmell :=
  (g.all_files.foldl (blastStep thr up fm) (g, [])).2

/-- The pure per-file classification that the fold implements (the threaded
defaultdict touches never change any read). -/
def blastFor (thr : Nat) (up : List String)
    (fm : String → String → Bool) (g : DependencyGraph) (f : String) :
    Option PSmell :=
  if thr ≤ (dmGet g.imported_by f).length then
    some (if up.any (fun p => fm f p) then
        utilitySmell f (dmGet g.imported_by f).length
      else coreSmell f (dmGet g.imported_by f).length
        (if 2 * thr ≤ (dmGet g.imported_by f).length then "high"
         else "medium"))
  else none

lemma blast_foldl_eq (thr : Nat) (up : List String)
    (fm : String → String → Bool) :
    ∀ (files : List String) (st : DependencyGraph × List PSmell)
      (g : DependencyGraph),
      (∀ f', dmGet st.1.imported_by f' = dmGet g.imported_by f') →
      (files.foldl (blastStep thr up fm) st).2 =
        st.2 ++ files.filterMap (blastFor thr up fm g) := by
  intro files
  induction files with
  | nil => intro st g _; simp
  | cons f fs ih =>
    intro st g hinv
    rw [List.foldl_cons]
    have hcnt : (get_import_count st.1 f).1 = (dmGet g.imported_by f).length := by
      simp [get_import_count, hinv f]
    have hinv' : ∀ f',
        dmGet (get_import_count st.1 f).2.imported_by f' =
          dmGet g.imported_by f' := by
      intro f'
      simp [get_import_count, dmGet_dmTouch, hinv f']
    by_cases hthr : thr ≤ (dmGet g.imported_by f).length
    · by_cases hut : up.any (fun p => fm f p) = true
      · have hstep : blastStep thr up fm st f =
            ((get_import_count st.1 f).2,
             st.2 ++ [utilitySmell f (dmGet g.imported_by f).length]) := by
          unfold blastStep
          rw [hcnt, if_pos hthr, if_pos hut]
        rw [hstep, ih _ g hinv']
        simp [blastFor, hthr, hut, List.filterMap_cons]
      · have hstep : blastStep thr up fm st f =
            ((get_import_count st.1 f).2,
             st.2 ++ [coreSmell f (dmGet g.imported_by f).length
               (if 2 * thr ≤ (dmGet g.imported_by f).length then "high"
                else "medium")]) := by
          unfold blastStep
          rw [hcnt, if_pos hthr, if_neg hut]
        rw [hstep, ih _ g hinv']
        simp [blastFor, hthr, hut, List.filterMap_cons]
    · have hstep : blastStep thr up fm st f =
          ((get_import_count st.1 f).2, st.2) := by
        unfold blastStep
        rw [hcnt, if_neg hthr]
      rw [hstep, ih _ g hinv']
      simp [blastFor, hthr, List.filterMap_cons]

lemma checkBlastRadius_eq (thr : Nat) (up : List String)
    (fm : String → String → Bool) (g : DependencyGraph) :
    checkBlastRadius thr up fm g =
      g.all_files.filterMap (blastFor thr up fm g) := by
  unfold checkBlastRadius
  rw [blast_foldl_eq thr up fm g.all_files (g, []) g (fun _ => rfl)]
  rfl

/-- The scenario graph: `service.py` imported by twelve distinct modules. -/
def blastScenarioEdges : List (String × String) :=
  [("u01", "service.py"), ("u02", "service.py"), ("u03", "service.py"),
   ("u04", "service.py"), ("u05", "service.py"), ("u06", "service.py"),
   ("u07", "service.py"), ("u08", "service.py"), ("u09", "service.py"),
   ("u10", "service.py"), ("u11", "service.py"), ("u12", "service.py")]

/-- C6.  A blast-radius finding is emitted for a file exactly when its fan-in
reaches the threshold; a qualifying file matching a utility pattern yields the
low-severity informational smell, otherwise the core smell whose severity is
`"high"` iff the count reaches twice the threshold and `"medium"` otherwise;
and `service.py` with fan-in 12 under threshold 10 and no utility patterns
yields exactly one `"medium"` finding with `count = 12`. -/
theorem blast_radius_classification (thr : Nat) (up : List String)
    (fm : String → String → Bool) (g : DependencyGraph) :
    (∀ f ∈ g.all_files,
      ((∃ s ∈ checkBlastRadius thr up fm g, s.file = f) ↔
        thr ≤ (dmGet g.imported_by f).length)) ∧
    (∀ f ∈ g.all_files, thr ≤ (dmGet g.imported_by f).length →
      (if up.any (fun p => fm f p) then
        utilitySmell f (dmGet g.imported_by f).length
       else coreSmell f (dmGet g.imported_by f).length
         (if 2 * thr ≤ (dmGet g.imported_by f).length then "high"
          else "medium")) ∈ checkBlastRadius thr up fm g) ∧
    (checkBlastRadius 10 [] (fun _ _ => false) (buildGraph blastScenarioEdges)
      = [coreSmell "service.py" 12 "medium"]) := by
  refine ⟨?_, ?_, by decide⟩
  · intro f hf
    rw [checkBlastRadius_eq]
    constructor
    · rintro ⟨s, hs, hfile⟩
      rcases List.mem_filterMap.mp hs with ⟨f', hf', hsome⟩
      unfold blastFor at hsome
      by_cases hthr : thr ≤ (dmGet g.imported_by f').length
      · rw [if_pos hthr] at hsome
        have hfe : s.file = f' := by
          rcases Option.some.inj hsome with rfl
          by_cases hut : up.any (fun p => fm f' p) = true
          · rw [if_pos hut]; rfl
          · rw [if_neg hut]; rfl
        rw [hfe] at hfile
        rw [← hfile]
        exact hthr
      · rw [if_neg hthr] at hsome
        cases hsome
    · intro hthr
      refine ⟨(if up.any (fun p => fm f p) then
          utilitySmell f (dmGet g.imported_by f).length
        else coreSmell f (dmGet g.imported_by f).length
          (if 2 * thr ≤ (dmGet g.imported_by f).length then "high"
           else "medium")), ?_, ?_⟩
      · exact List.mem_filterMap.mpr ⟨f, hf, by unfold blastFor; rw [if_pos hthr]⟩
      · by_cases hut : up.any (fun p => fm f p) = true
        · rw [if_pos hut]; rfl
        · rw [if_neg hut]; rfl
  · intro f hf hthr
    rw [checkBlastRadius_eq]
    exact List.mem_filterMap.mpr ⟨f, hf, by unfold blastFor; rw [if_pos hthr]⟩

/-- Witness for C6: in the twelve-importer scenario, a finding for
`service.py` exists iff its fan-in reaches the threshold. -/
theorem blast_radius_classification_witness :
    (∃ s ∈ checkBlastRadius 10 [] (fun _ _ => false)
        (buildGraph blastScenarioEdges), s.file = "service.py") ↔
      10 ≤ (dmGet (buildGraph blastScenarioEdges).imported_by
        "service.py").length :=
  (blast_radius_classification 10 [] (fun _ _ => false)
    (buildGraph blastScenarioEdges)).1 "service.py" (by decide)

/-! ### C8: project fingerprint (`analyzer/utils.py`, lines 147-158)
`sorted(file_paths)` sorts by Python string `<` (code-point lexicographic). -/

lemma bool_eq_false {b : Bool} (h : ¬ b = true) : b = false := by
  cases b
  · rfl
  · exact absurd rfl h

lemma pyCharLt_iff (a b : Char) : pyCharLt a b = true ↔ a.toNat < b.toNat := by
  simp [pyCharLt, Nat.blt_eq]

lemma pyCharLt_false (a b : Char) : pyCharLt a b = false ↔ ¬ a.toNat < b.toNat := by
  rw [Bool.eq_false_iff, Ne, pyCharLt_iff]

lemma pyCharLt_asymm {a b : Char} (h : pyCharLt a b = true) :
    pyCharLt b a = false := by
  rw [pyCharLt_iff] at h
  rw [pyCharLt_false]
  omega

lemma pyCharLt_trans {a b c : Char} (h1 : pyCharLt a b = true)
    (h2 : pyCharLt b c = true) : pyCharLt a c = true := by
  rw [pyCharLt_iff] at h1 h2 ⊢
  omega

lemma pyCharLt_irrefl (a : Char) : pyCharLt a a = false := by
  rw [pyCharLt_false]
  omega

lemma char_eq_of_not_lt {a b : Char} (h1 : pyCharLt a b = false)
    (h2 : pyCharLt b a = false) : a = b := by
  rw [pyCharLt_false] at h1 h2
  apply Char.ext
  apply UInt32.ext
  show a.toNat = b.toNat
  omega

lemma ltAux_asymm (as : List Char) :
    ∀ bs, pyStrLtAux as bs = true → pyStrLtAux bs as = false := by
  induction as with
  | nil =>
    intro bs h
    cases bs with
    | nil => simp [pyStrLtAux] at h
    | cons b bs' => simp [pyStrLtAux]
  | cons a as' ih =>
    intro bs h
    cases bs with
    | nil => simp [pyStrLtAux] at h
    | cons b bs' =>
      unfold pyStrLtAux at h ⊢
      by_cases hab : pyCharLt a b = true
      · have hba := pyCharLt_asymm hab
        simp [hab, hba]
      · have hab' := bool_eq_false hab
        by_cases hba : pyCharLt b a = true
        · simp [hab', hba] at h
        · have hba' := bool_eq_false hba
          simp [hab', hba'] at h ⊢
          exact ih bs' h

lemma ltAux_eq_of_not (as : List Char) :
    ∀ bs, pyStrLtAux as bs = false → pyStrLtAux bs as = false → as = bs := by
  induction as with
  | nil =>
    intro bs h1 _
    cases bs with
    | nil => rfl
    | cons b bs' => simp [pyStrLtAux] at h1
  | cons a as' ih =>
    intro bs h1 h2
    cases bs with
    | nil => simp [pyStrLtAux] at h2
    | cons b bs' =>
      unfold pyStrLtAux at h1 h2
      by_cases hab : pyCharLt a b = true
      · simp [hab] at h1
      · have hab' := bool_eq_false hab
        by_cases hba : pyCharLt b a = true
        · simp [hba] at h2
        · have hba' := bool_eq_false hba
          simp [hab', hba'] at h1 h2
          rw [char_eq_of_not_lt hab' hba', ih bs' h1 h2]

lemma ltAux_trans (as : List Char) :
    ∀ bs cs, pyStrLtAux as bs = true → pyStrLtAux bs cs = true →
      pyStrLtAux as cs = true := by
  induction as with
  | nil =>
    intro bs cs h1 h2
    cases bs with
    | nil => simp [pyStrLtAux] at h1
    | cons b bs' =>
      cases cs with
      | nil => simp [pyStrLtAux] at h2
      | cons c cs' => simp [pyStrLtAux]
  | cons a as' ih =>
    intro bs cs h1 h2
    cases bs with
    | nil => simp [pyStrLtAux] at h1
    | cons b bs' =>
      cases cs with
      | nil => simp [pyStrLtAux] at h2
      | cons c cs' =>
        unfold pyStrLtAux at h1 h2 ⊢
        by_cases hab : pyCharLt a b = true
        · by_cases hbc : pyCharLt b c = true
          · simp [pyCharLt_trans hab hbc]
          · have hbc' := bool_eq_false hbc
            by_cases hcb : pyCharLt c b = true
            · simp [hbc', hcb] at h2
            · have hcb' := bool_eq_false hcb
              have heq : b = c := char_eq_of_not_lt hbc' hcb'
              subst heq
              simp [hab]
        · have hab' := bool_eq_false hab
          by_cases hba : pyCharLt b a = true
          · simp [hab', hba] at h1
          · have hba' := bool_eq_false hba
            have heq : a = b := char_eq_of_not_lt hab' hba'
            subst heq
            simp [pyCharLt_irrefl] at h1
            by_cases hac : pyCharLt a c = true
            · simp [hac]
            · have hac' := bool_eq_false hac
              by_cases hca : pyCharLt c a = true
              · simp [hac', hca] at h2
              · have hca' := bool_eq_false hca
                simp [hac', hca'] at h2 ⊢
                exact ih bs' cs' h1 h2

lemma pyStrLt_asymm {a b : String} (h : pyStrLt a b = true) :
    pyStrLt b a = false := ltAux_asymm a.data b.data h

lemma pyStrLt_trans {a b c : String} (h1 : pyStrLt a b = true)
    (h2 : pyStrLt b c = true) : pyStrLt a c = true :=
  ltAux_trans a.data b.data c.data h1 h2

lemma pyStr_eq_of_not_lt {a b : String} (h1 : pyStrLt a b = false)
    (h2 : pyStrLt b a = false) : a = b :=
  String.ext (ltAux_eq_of_not a.data b.data h1 h2)

/-- Python `<=` on strings, as used by ascending `sorted`. -/
def pyStrLe (a b : String) : Bool := !(pyStrLt b a)

lemma pyStrLe_iff {a b : String} : pyStrLe a b = true ↔ pyStrLt b a = false := by
  simp [pyStrLe]

lemma pyStrLe_trans {a b c : String} (h1 : pyStrLe a b = true)
    (h2 : pyStrLe b c = true) : pyStrLe a c = true := by
  rw [pyStrLe_iff] at h1 h2 ⊢
  by_cases hab : pyStrLt a b = true
  · cases hq : pyStrLt c a
    · rfl
    · exact absurd (pyStrLt_trans hq hab) (by simp [h2])
  · have heq : a = b := pyStr_eq_of_not_lt (bool_eq_false hab) h1
    rw [heq]
    exact h2

lemma pyStrLe_total (a b : String) :
    pyStrLe a b = true ∨ pyStrLe b a = true := by
  rw [pyStrLe_iff, pyStrLe_iff]
  by_cases h : pyStrLt b a = true
  · exact Or.inr (pyStrLt_asymm h)
  · exact Or.inl (bool_eq_false h)

lemma pyStrLe_antisymm {a b : String} (h1 : pyStrLe a b = true)
    (h2 : pyStrLe b a = true) : a = b := by
  rw [pyStrLe_iff] at h1 h2
  exact pyStr_eq_of_not_lt h2 h1

/-- One insertion step of `sorted`.  The order is total and antisymmetric, so
the ascending arrangement of the multiset is unique and insertion sort equals
CPython's stable sort. -/
def pyInsert (x : String) : List String → List String
  | [] => [x]
  | y :: ys => if pyStrLe x y then x :: y :: ys else y :: pyInsert x ys

/-- Python `sorted(file_paths)` (ascending by string `<`). -/
def pySorted : List String → List String
  | [] => []
  | x :: xs => pyInsert x (pySorted xs)

lemma pyInsert_perm (x : String) (l : List String) :
    (pyInsert x l).Perm (x :: l) := by
  induction l with
  | nil => exact List.Perm.refl _
  | cons y ys ih =>
    unfold pyInsert
    by_cases h : pyStrLe x y = true
    · rw [if_pos h]
    · rw [if_neg h]
      exact (ih.cons y).trans (List.Perm.swap x y ys)

lemma pySorted_perm (l : List String) : (pySorted l).Perm l := by
  induction l with
  | nil => exact List.Perm.refl _
  | cons x xs ih =>
    exact (pyInsert_perm x (pySorted xs)).trans (ih.cons x)

lemma pyInsert_sorted (x : String) (l : List String)
    (h : List.Sorted (fun a b => pyStrLe a b = true) l) :
    List.Sorted (fun a b => pyStrLe a b = true) (pyInsert x l) := by
  induction l with
  | nil => simp [pyInsert]
  | cons y ys ih =>
    rcases List.sorted_cons.mp h with ⟨hy, hys⟩
    unfold pyInsert
    by_cases hxy : pyStrLe x y = true
    · rw [if_pos hxy, List.sorted_cons]
      refine ⟨?_, h⟩
      intro b hb
      rcases List.mem_cons.mp hb with rfl | hmem
      · exact hxy
      · exact pyStrLe_trans hxy (hy b hmem)
    · rw [if_neg hxy, List.sorted_cons]
      refine ⟨?_, ih hys⟩
      intro b hb
      rcases List.mem_cons.mp ((pyInsert_perm x ys).mem_iff.mp hb) with rfl | hmem
      · rcases pyStrLe_total y b with hyb | hby
        · exact hyb
        · exact absurd hby hxy
      · exact hy b hmem

lemma pySorted_sorted (l : List String) :
    List.Sorted (fun a b => pyStrLe a b = true) (pySorted l) := by
  induction l with
  | nil => simp [pySorted]
  | cons x xs ih => exact pyInsert_sorted x (pySorted xs) ih

lemma pySorted_eq_of_perm {l₁ l₂ : List String} (h : l₁.Perm l₂) :
    pySorted l₁ = pySorted l₂ := by
  refine @List.eq_of_perm_of_sorted String (fun a b => pyStrLe a b = true)
    ⟨fun a b h1 h2 => pyStrLe_antisymm h1 h2⟩ _ _ ?_
    (pySorted_sorted l₁) (pySorted_sorted l₂)
  exact (pySorted_perm l₁).trans (h.trans (pySorted_perm l₂).symm)

/-- Decimal digit characters. -/
def digitChar : Nat → Char
  | 0 => '0'
  | 1 => '1'
  | 2 => '2'
  | 3 => '3'
  | 4 => '4'
  | 5 => '5'
  | 6 => '6'
  | 7 => '7'
  | 8 => '8'
  | 9 => '9'
  | _ => '0'

/-- Decimal rendering of a natural number; `fuel` bounds the digit recursion
(`fuel = n` suffices since `n / 10 < n`). -/
def natCharsAux : Nat → Nat → List Char
  | 0, n => [digitChar (n % 10)]
  | fuel + 1, n =>
    if n < 10 then [digitChar n]
    else natCharsAux fuel (n / 10) ++ [digitChar (n % 10)]

/-- `str(n)` for the numeric stat fields.  `st_mtime` is a float in Python;
its value is abstracted as a natural number — all that matters for the
fingerprint claims is that distinct values have distinct renderings and the
rendering never contains `:` or `|`. -/
def natStr (n : Nat) : String := String.mk (natCharsAux n n)

lemma digitChar_mem (d : Nat) :
    digitChar d ∈ ['0', '1', '2', '3', '4', '5', '6', '7', '8', '9'] := by
  unfold digitChar
  split <;> decide

lemma digitChar_ne_colon (d : Nat) : digitChar d ≠ ':' := by
  have h := digitChar_mem d
  intro heq
  rw [heq] at h
  revert h
  decide

lemma natCharsAux_no_colon : ∀ fuel n, ∀ c ∈ natCharsAux fuel n, c ≠ ':' := by
  intro fuel
  induction fuel with
  | zero =>
    intro n c hc
    rw [List.mem_singleton.mp hc]
    exact digitChar_ne_colon _
  | succ fuel ih =>
    intro n c hc
    unfold natCharsAux at hc
    by_cases h : n < 10
    · rw [if_pos h] at hc
      rw [List.mem_singleton.mp hc]
      exact digitChar_ne_colon _
    · rw [if_neg h] at hc
      rcases List.mem_append.mp hc with h1 | h2
      · exact ih (n / 10) c h1
      · rw [List.mem_singleton.mp h2]
        exact digitChar_ne_colon _

/-- The numeric value of a digit character. -/
def digitVal (c : Char) : Nat := c.toNat - 48

lemma digitVal_digitChar (d : Nat) (h : d < 10) :
    digitVal (digitChar d) = d := by
  interval_cases d <;> decide

/-- Decimal evaluation, the left inverse of `natCharsAux`. -/
def natVal (l : List Char) : Nat :=
  l.foldl (fun acc c => 10 * acc + digitVal c) 0

lemma natVal_append_digit (xs : List Char) (c : Char) :
    natVal (xs ++ [c]) = 10 * natVal xs + digitVal c := by
  unfold natVal
  rw [List.foldl_append]
  rfl

lemma natVal_natCharsAux : ∀ fuel n, n ≤ fuel →
    natVal (natCharsAux fuel n) = n := by
  intro fuel
  induction fuel with
  | zero =>
    intro n hn
    have h0 : n = 0 := Nat.le_zero.mp hn
    subst h0
    decide
  | succ fuel ih =>
    intro n hn
    unfold natCharsAux
    by_cases h : n < 10
    · rw [if_pos h]
      show natVal [digitChar n] = n
      unfold natVal
      simp [digitVal_digitChar n h]
    · rw [if_neg h]
      rw [natVal_append_digit]
      have hdivle : n / 10 ≤ fuel := by
        have := Nat.div_lt_self (show 0 < n by omega) (show 1 < 10 by omega)
        omega
      rw [ih (n / 10) hdivle, digitVal_digitChar (n % 10) (Nat.mod_lt n (by omega))]
      exact Nat.div_add_mod n 10

lemma natChars_inj {m n : Nat} (h : natCharsAux m m = natCharsAux n n) :
    m = n := by
  have h1 := natVal_natCharsAux m m le_rfl
  have h2 := natVal_natCharsAux n n le_rfl
  rw [← h1, ← h2, h]

lemma colonfree_split : ∀ (xs zs ys ws : List Char),
    (∀ c ∈ xs, c ≠ ':') → (∀ c ∈ zs, c ≠ ':') →
    xs ++ ':' :: ys = zs ++ ':' :: ws → xs = zs ∧ ys = ws := by
  intro xs
  induction xs with
  | nil =>
    intro zs ys ws _ hz h
    cases zs with
    | nil =>
      simp at h
      exact ⟨rfl, h⟩
    | cons z zs' =>
      simp at h
      exact absurd h.1.symm (hz z (List.mem_cons_self _ _))
  | cons x xs' ih =>
    intro zs ys ws hx hz h
    cases zs with
    | nil =>
      simp at h
      exact absurd h.1 (hx x (List.mem_cons_self _ _))
    | cons z zs' =>
      simp at h
      obtain ⟨rfl, h2⟩ := h
      obtain ⟨he, hy⟩ := ih zs' ys ws
        (fun c hc => hx c (List.mem_cons_of_mem _ hc))
        (fun c hc => hz c (List.mem_cons_of_mem _ hc)) h2
      exact ⟨by rw [he], hy⟩

/-- The `os.stat` results the fingerprint reads for a path: `st_mtime` and
`st_size`; `none` models the `(OSError, IOError)` branch (missing or
unreadable file). -/
abbrev StatFn := String → Option (Nat × Nat)

/-- One `file_hashes` entry (`analyzer/utils.py`, lines 150-155):
`f"{file_path}:{stat.st_mtime}:{stat.st_size}"`, or `f"{file_path}:missing"`
when `os.stat` raises. -/
def fileEntry (stat : StatFn) (p : String) : String :=
  match stat p with
  | some ms => p ++ ":" ++ natStr ms.1 ++ ":" ++ natStr ms.2
  | none => p ++ ":missing"

/-- `'|'.join(file_hashes)`. -/
def pyJoin (sep : String) : List String → String
  | [] => ""
  | [x] => x
  | x :: y :: rest => x ++ sep ++ pyJoin sep (y :: rest)

/-- `get_project_hash(file_paths)` (`analyzer/utils.py`, lines 147-158): the
`combined` string over the sorted path list.  `hashlib.md5(...).hexdigest()`
is an external stdlib primitive modelled as an injective digest, so the
fingerprint is represented by the pre-hash `combined` string itself. -/
def get_project_hash (stat : StatFn) (file_paths : List String) : String :=
  pyJoin "|" ((pySorted file_paths).map (fileEntry stat))

/-- A change of one file's stat result, leaving every other path unchanged. -/
def statUpdate (stat : StatFn) (p : String) (v : Option (Nat × Nat)) : StatFn :=
  fun q => if q = p then v else stat q

lemma pyJoin_cons_ne_nil (sep x : String) (rest : List String)
    (h : rest ≠ []) :
    pyJoin sep (x :: rest) = x ++ sep ++ pyJoin sep rest := by
  cases rest with
  | nil => exact absurd rfl h
  | cons y t => rfl

lemma pyJoin_single_diff (sep : String) :
    ∀ (A B : List String) (e e' : String),
      pyJoin sep (A ++ e :: B) = pyJoin sep (A ++ e' :: B) → e = e' := by
  intro A
  induction A with
  | nil =>
    intro B e e' h
    cases B with
    | nil => simpa [pyJoin] using h
    | cons y rest =>
      simp only [List.nil_append] at h
      rw [pyJoin_cons_ne_nil sep e (y :: rest) (by simp),
        pyJoin_cons_ne_nil sep e' (y :: rest) (by simp)] at h
      have hd := congrArg String.data h
      simp only [String.data_append, List.append_assoc] at hd
      exact String.ext (List.append_cancel_right hd)
  | cons a A' ih =>
    intro B e e' h
    rw [List.cons_append, List.cons_append,
      pyJoin_cons_ne_nil sep a (A' ++ e :: B) (by simp),
      pyJoin_cons_ne_nil sep a (A' ++ e' :: B) (by simp)] at h
    have hd := congrArg String.data h
    simp only [String.data_append, List.append_assoc] at hd
    have hd2 := List.append_cancel_left (List.append_cancel_left hd)
    exact ih B e e' (String.ext hd2)

lemma fileEntry_some_ne {p : String} {m s m' s' : Nat}
    (hne : ¬ (m = m' ∧ s = s')) :
    (p ++ ":" ++ natStr m ++ ":" ++ natStr s) ≠
      (p ++ ":" ++ natStr m' ++ ":" ++ natStr s') := by
  intro h
  have hd := congrArg String.data h
  simp only [String.data_append, List.append_assoc] at hd
  have hd2 := List.append_cancel_left hd
  have hd3 : natCharsAux m m ++ ':' :: natCharsAux s s =
      natCharsAux m' m' ++ ':' :: natCharsAux s' s' := by
    have : (":" : String).data = [':'] := rfl
    simpa [natStr, this] using List.append_cancel_left hd2
  obtain ⟨hm, hs⟩ := colonfree_split _ _ _ _
    (natCharsAux_no_colon m m) (natCharsAux_no_colon m' m') hd3
  exact hne ⟨natChars_inj hm, natChars_inj hs⟩

lemma pyJoin_length (sep : String) :
    ∀ xs : List String, xs ≠ [] →
      (pyJoin sep xs).data.length =
        (xs.map (fun x => x.data.length)).sum +
          sep.data.length * (xs.length - 1) := by
  intro xs
  induction xs with
  | nil => intro h; exact absurd rfl h
  | cons x rest ih =>
    intro _
    cases rest with
    | nil => simp [pyJoin]
    | cons y t =>
      rw [pyJoin_cons_ne_nil sep x (y :: t) (by simp)]
      have hd : ((x ++ sep ++ pyJoin sep (y :: t))).data.length =
          x.data.length + sep.data.length +
            (pyJoin sep (y :: t)).data.length := by
        simp [String.data_append]
        omega
      rw [hd, ih (by simp)]
      simp only [List.map_cons, List.sum_cons, List.length_cons,
        Nat.add_sub_cancel]
      rw [Nat.mul_succ]
      omega

lemma fileEntry_len_pos (stat : StatFn) (p : String) :
    0 < (fileEntry stat p).data.length := by
  unfold fileEntry
  cases h : stat p with
  | some ms =>
    simp [String.data_append]
  | none =>
    simp [String.data_append]

lemma hash_perm_eq (stat : StatFn) {l₁ l₂ : List String} (h : l₁.Perm l₂) :
    get_project_hash stat l₁ = get_project_hash stat l₂ := by
  unfold get_project_hash
  rw [pySorted_eq_of_perm h]

lemma hash_update_ne (stat : StatFn) (l : List String) (p : String)
    (m s m' s' : Nat) (hnd : l.Nodup) (hp : p ∈ l)
    (hstat : stat p = some (m, s)) (hne : ¬ (m = m' ∧ s = s')) :
    get_project_hash (statUpdate stat p (some (m', s'))) l ≠
      get_project_hash stat l := by
  intro h
  have hsortmem : p ∈ pySorted l := (pySorted_perm l).mem_iff.mpr hp
  obtain ⟨A, B, hAB⟩ := List.append_of_mem hsortmem
  have hnds : (pySorted l).Nodup := (pySorted_perm l).symm.nodup hnd
  rw [hAB] at hnds
  obtain ⟨hA, hB, hdisj⟩ := List.nodup_append.mp hnds
  have hpA : p ∉ A := fun hpa => hdisj hpa (List.mem_cons_self _ _)
  unfold get_project_hash at h
  rw [hAB, List.map_append, List.map_cons, List.map_append, List.map_cons] at h
  have hAmap : A.map (fileEntry (statUpdate stat p (some (m', s')))) =
      A.map (fileEntry stat) := by
    apply List.map_congr_left
    intro q hq
    have hqne : ¬ q = p := by
      intro he
      subst he
      exact hpA hq
    have hq' : statUpdate stat p (some (m', s')) q = stat q := by
      unfold statUpdate
      rw [if_neg hqne]
    unfold fileEntry
    rw [hq']
  have hBmap : B.map (fileEntry (statUpdate stat p (some (m', s')))) =
      B.map (fileEntry stat) := by
    apply List.map_congr_left
    intro q hq
    have hpB : p ∉ B := (List.nodup_cons.mp hB).1
    have hqne : ¬ q = p := by
      intro he
      subst he
      exact hpB hq
    have hq' : statUpdate stat p (some (m', s')) q = stat q := by
      unfold statUpdate
      rw [if_neg hqne]
    unfold fileEntry
    rw [hq']
  rw [hAmap, hBmap] at h
  have hee := pyJoin_single_diff "|" _ _ _ _ h
  have hup : statUpdate stat p (some (m', s')) p = some (m', s') := by
    unfold statUpdate
    rw [if_pos rfl]
  unfold fileEntry at hee
  rw [hup, hstat] at hee
  exact fileEntry_some_ne hne hee.symm

lemma hash_append_ne (stat : StatFn) (l : List String) (p : String) :
    get_project_hash stat (l ++ [p]) ≠ get_project_hash stat l := by
  intro h
  have hperm2 : ((pySorted (l ++ [p])).map (fileEntry stat)).Perm
      ((l.map (fileEntry stat)) ++ [fileEntry stat p]) := by
    have := (pySorted_perm (l ++ [p])).map (fileEntry stat)
    simpa [List.map_append] using this
  have hperm1 : ((pySorted l).map (fileEntry stat)).Perm
      (l.map (fileEntry stat)) := (pySorted_perm l).map (fileEntry stat)
  have hfp : 0 < (fileEntry stat p).data.length := fileEntry_len_pos stat p
  cases l with
  | nil =>
    have h3 : (fileEntry stat p) = "" := by
      simpa [get_project_hash, pySorted, pyInsert, pyJoin] using h
    rw [h3] at hfp
    simp at hfp
  | cons a l' =>
    have hlen := congrArg (fun s => s.data.length) h
    simp only [get_project_hash] at hlen
    have hcnt2 : ((pySorted ((a :: l') ++ [p])).map (fileEntry stat)).length =
        (a :: l').length + 1 := by
      have := hperm2.length_eq
      simpa using this
    have hcnt1 : ((pySorted (a :: l')).map (fileEntry stat)).length =
        (a :: l').length := by
      simpa using hperm1.length_eq
    have hne2 : (pySorted ((a :: l') ++ [p])).map (fileEntry stat) ≠ [] := by
      intro hz
      rw [hz] at hcnt2
      simp at hcnt2
    have hne1 : (pySorted (a :: l')).map (fileEntry stat) ≠ [] := by
      intro hz
      rw [hz] at hcnt1
      simp at hcnt1
    rw [pyJoin_length "|" _ hne2, pyJoin_length "|" _ hne1] at hlen
    have hs2 := (hperm2.map (fun x => x.data.length)).sum_eq
    have hs1 := (hperm1.map (fun x => x.data.length)).sum_eq
    have hsep : ("|" : String).data.length = 1 := rfl
    simp only [List.map_map, List.map_append, List.sum_append, List.map_cons, List.sum_cons, List.length_cons, List.length_nil, List.length_append, List.length_map, List.map_nil, List.sum_nil, hsep] at hs2 hs1 hcnt2 hcnt1 hlen
    omega

/-- C8.  The fingerprint (represented by its pre-hash `combined` string; MD5
is modelled as an injective digest) is a function of the set of
`(path, mtime, size)` tuples — any permutation of the input paths yields the
same string — while changing one present file's mtime or size, or appending a
file, always changes it (removal is the same inequality read right to left). -/
theorem project_fingerprint (stat : StatFn) :
    (∀ l₁ l₂ : List String, l₁.Perm l₂ →
      get_project_hash stat l₁ = get_project_hash stat l₂) ∧
    (∀ (l : List String) (p : String) (m s m' s' : Nat),
      l.Nodup → p ∈ l → stat p = some (m, s) → ¬ (m = m' ∧ s = s') →
      get_project_hash (statUpdate stat p (some (m', s'))) l ≠
        get_project_hash stat l) ∧
    (∀ (l : List String) (p : String),
      get_project_hash stat (l ++ [p]) ≠ get_project_hash stat l) :=
  ⟨fun _ _ h => hash_perm_eq stat h,
   fun l p m s m' s' hnd hp hstat hne => hash_update_ne stat l p m s m' s' hnd hp hstat hne,
   fun l p => hash_append_ne stat l p⟩

/-- A concrete stat function for the fingerprint witness. -/
def witStat : StatFn := fun q => if q = "a" then some (1, 2) else some (3, 4)

/-- Witness for C8: order-independence, mtime-sensitivity and
addition-sensitivity at concrete inputs. -/
theorem project_fingerprint_witness :
    (get_project_hash witStat ["b", "a"] = get_project_hash witStat ["a", "b"]) ∧
    (get_project_hash (statUpdate witStat "a" (some (1, 3))) ["a", "b"] ≠
      get_project_hash witStat ["a", "b"]) ∧
    (get_project_hash witStat (["a"] ++ ["c"]) ≠ get_project_hash witStat ["a"]) :=
  ⟨(project_fingerprint witStat).1 ["b", "a"] ["a", "b"] (by decide),
   (project_fingerprint witStat).2.1 ["a", "b"] "a" 1 2 1 3 (by decide)
     (by decide) (by decide) (by decide),
   (project_fingerprint witStat).2.2 ["a"] "c"⟩

/-! ### C9: git-backed detectors
(`analyzer/git_analysis.py` and `analyzer/decorators.py`) -/

/-- One value of the on-disk result cache: `{'data': ..., 'timestamp': ...}`.
Times are epoch seconds as integers (`time.time()` floats abstracted). -/
structure CacheEntry where
  data : List FSmell
  timestamp : Int
  deriving DecidableEq, Repr

/-- The JSON cache document: an insertion-ordered dict. -/
abbrev Cache := List (String × CacheEntry)

/-- `cache.get(key)`. -/
def cacheLookup : Cache → String → Option CacheEntry
  | [], _ => none
  | e :: rest, k => if e.1 = k then some e.2 else cacheLookup rest k

/-- `decorators.cache_result(expiry_seconds)` (`analyzer/decorators.py`,
lines 5-38): return the cached `data` when an entry exists and
`now - timestamp < expiry_seconds`, otherwise run the wrapped function.  (The
write-back of the fresh result does not affect the returned value; methods
always have a `project_root`-carrying `self`, so the no-key fallback branch is
not taken.) -/
def cache_result (expiry : Int) (key : String) (now : Int) (cache : Cache)
    (body : List FSmell) : List FSmell :=
  match cacheLookup cache key with
  | some e => if now - e.timestamp < expiry then e.data else body
  | none => body

/-- What the detectors read from a `git.Repo`: the committed time of the most
recent commit touching a path (`next(iter_commits(paths=..., max_count=1))`,
`none` for `StopIteration`/`GitCommandError` — untracked file), and the
number of commits touching a path since a date. -/
structure GitRepo where
  lastCommitTime : String → Option Int
  commitsSince : String → Int → Nat

/-- `GitAnalyzer.__init__` state (`analyzer/git_analysis.py`, lines 30-57):
`repo` is `None` when GitPython is absent or the directory is not a valid
repository; the injected `FileClassifier.classify_file` is the `classify`
field; the thresholds come from the config. -/
structure GitAnalyzer where
  projectRootName : String
  repo : Option GitRepo
  classify : String → List String
  staleThresholdDays : Int
  churnDays : Int
  churnThreshold : Nat

/-- The `STALE_LOGIC` smell (lines 87-93). -/
def staleLogicSmell (ga : GitAnalyzer) (fp : String) : FSmell :=
  create_smell "STALE_LOGIC" fp
    ("Source file has not been modified in " ++
      toString ga.staleThresholdDays ++ " days.")
    "Low" "Git Analysis" none

/-- The `HIGH_CHURN` smell (lines 125-131). -/
def highChurnSmell (ga : GitAnalyzer) (fp : String) (n : Nat) : FSmell :=
  create_smell "HIGH_CHURN" fp
    ("High churn: " ++ toString n ++ " commits in the last " ++
      toString ga.churnDays ++ " days.")
    "Medium" "Git Analysis" none

/-- The `STALE_TESTS` smell (lines 166-172). -/
def staleTestsSmell (src tf : String) : FSmell :=
  create_smell "STALE_TESTS" src
    ("Source file (" ++ pyBasename src ++
      ") modified more recently than its test file (" ++ pyBasename tf ++ ").")
    "Medium" "Git Analysis" none

/-- Body of `check_stale_logic` (lines 61-98): empty without a repository;
otherwise flag each source-classified file whose last commit predates
`now - threshold_days` (days converted to seconds). -/
def checkStaleLogicBody (ga : GitAnalyzer) (now : Int) (files : List String) :
    List FSmell :=
  match ga.repo with
  | none => []
  | some repo =>
    files.filterMap (fun fp =>
      if "source" ∈ ga.classify fp then
        match repo.lastCommitTime fp with
        | some t =>
          if t < now - ga.staleThresholdDays * 86400 then
            some (staleLogicSmell ga fp)
          else none
        | none => none
      else none)

/-- Body of `check_high_churn` (lines 101-135). -/
def checkHighChurnBody (ga : GitAnalyzer) (now : Int) (files : List String) :
    List FSmell :=
  match ga.repo with
  | none => []
  | some repo =>
    files.filterMap (fun fp =>
      if "source" ∈ ga.classify fp then
        if ga.churnThreshold ≤
            repo.commitsSince fp (now - ga.churnDays * 86400) then
          some (highChurnSmell ga fp
            (repo.commitsSince fp (now - ga.churnDays * 86400)))
        else none
      else none)

/-- The candidate loop of `check_stale_tests` (lines 160-175): the first
candidate whose last commit is strictly older than the source's produces the
smell and breaks; candidates with missing history are skipped. -/
def firstStaleTest (repo : GitRepo) (fp : String) :
    List String → Option FSmell
  | [] => none
  | t :: ts =>
    match repo.lastCommitTime fp, repo.lastCommitTime t with
    | some st, some tt =>
      if tt < st then some (staleTestsSmell fp t) else firstStaleTest repo fp ts
    | _, _ => firstStaleTest repo fp ts

/-- Body of `check_stale_tests` (lines 138-177).  The candidate search
`_find_corresponding_test_candidates` (lines 179-240) is a pure
naming-convention heuristic over the file set; it is injected as the
parameter `fc`, since its internals never affect the claims settled here and
its result order (Python `list(set(...))`) is unspecified anyway. -/
def checkStaleTestsBody (ga : GitAnalyzer)
    (fc : String → List String → List String) (files : List String) :
    List FSmell :=
  match ga.repo with
  | none => []
  | some repo =>
    files.filterMap (fun fp =>
      if "source" ∈ ga.classify fp then firstStaleTest repo fp (fc fp files)
      else none)

/-- `GitAnalyzer.check_stale_logic`: the body behind the 24-hour
`cache_result` decorator, keyed `"check_stale_logic:" + project_root.name`. -/
def check_stale_logic (ga : GitAnalyzer) (now : Int) (cache : Cache)
    (files : List String) : List FSmell :=
  cache_result 86400 ("check_stale_logic:" ++ ga.projectRootName) now cache
    (checkStaleLogicBody ga now files)

/-- `GitAnalyzer.check_high_churn`, decorated like `check_stale_logic`. -/
def check_high_churn (ga : GitAnalyzer) (now : Int) (cache : Cache)
    (files : List String) : List FSmell :=
  cache_result 86400 ("check_high_churn:" ++ ga.projectRootName) now cache
    (checkHighChurnBody ga now files)

/-- `GitAnalyzer.check_stale_tests`, decorated like `check_stale_logic`. -/
def check_stale_tests (ga : GitAnalyzer)
    (fc : String → List String → List String) (now : Int) (cache : Cache)
    (files : List String) : List FSmell :=
  cache_result 86400 ("check_stale_tests:" ++ ga.projectRootName) now cache
    (checkStaleTestsBody ga fc files)

/-- Whether the cache holds a fresh (unexpired) entry under `key`. -/
def freshEntry (cache : Cache) (key : String) (now expiry : Int) : Bool :=
  match cacheLookup cache key with
  | some e => decide (now - e.timestamp < expiry)
  | none => false

/-- A `GitAnalyzer` over a directory with no git repository. -/
def noRepoAnalyzer : GitAnalyzer where
  projectRootName := "proj"
  repo := none
  classify := fun _ => ["source"]
  staleThresholdDays := 365
  churnDays := 30
  churnThreshold := 10

/-- A finding cached by an earlier run. -/
def cachedSmell : FSmell :=
  create_smell "STALE_LOGIC" "old.py"
    "Source file has not been modified in 365 days." "Low" "Git Analysis" none

/-- C9 counterexample.  With no repository present but a fresh cache entry
under the detector's key (written within the last 24 hours, possibly by a run
of a *different* project whose root directory has the same basename),
`check_stale_logic` returns the cached findings, not the empty list. -/
theorem git_noop_counterexample :
    check_stale_logic noRepoAnalyzer 1000
      [("check_stale_logic:proj", { data := [cachedSmell], timestamp := 900 })]
      ["a.py"] = [cachedSmell] ∧
    [cachedSmell] ≠ ([] : List FSmell) := by decide

lemma cache_result_nil (k : String) (now : Int) (cache : Cache)
    (body : List FSmell)
    (hf : freshEntry cache k now 86400 = false) (hb : body = []) :
    cache_result 86400 k now cache body = [] := by
  unfold cache_result
  unfold freshEntry at hf
  cases hl : cacheLookup cache k with
  | none => simp [hl, hb]
  | some e =>
    rw [hl] at hf
    simp only [hl]
    rw [if_neg (of_decide_eq_false hf), hb]

/-- C9 (amended).  With no version-control repository present, each of
`check_stale_logic`, `check_high_churn` and `check_stale_tests` returns the
empty findings list (and, being total functions, raises no error) — provided
the 24-hour result cache holds no fresh entry under the detector's key; a
fresh cached entry is replayed verbatim (see the counterexample). -/
theorem git_noop_amended (ga : GitAnalyzer) (now : Int) (cache : Cache)
    (files : List String) (fc : String → List String → List String)
    (hrepo : ga.repo = none)
    (h1 : freshEntry cache ("check_stale_logic:" ++ ga.projectRootName)
      now 86400 = false)
    (h2 : freshEntry cache ("check_high_churn:" ++ ga.projectRootName)
      now 86400 = false)
    (h3 : freshEntry cache ("check_stale_tests:" ++ ga.projectRootName)
      now 86400 = false) :
    check_stale_logic ga now cache files = [] ∧
    check_high_churn ga now cache files = [] ∧
    check_stale_tests ga fc now cache files = [] := by
  refine ⟨?_, ?_, ?_⟩
  · exact cache_result_nil _ now cache _ h1 (by simp [checkStaleLogicBody, hrepo])
  · exact cache_result_nil _ now cache _ h2 (by simp [checkHighChurnBody, hrepo])
  · exact cache_result_nil _ now cache _ h3 (by simp [checkStaleTestsBody, hrepo])

/-- Witness for the amended C9 with an empty cache and no repository. -/
theorem git_noop_amended_witness :
    check_stale_logic noRepoAnalyzer 0 [] ["a.py"] = [] ∧
    check_high_churn noRepoAnalyzer 0 [] ["a.py"] = [] ∧
    check_stale_tests noRepoAnalyzer (fun _ _ => []) 0 [] ["a.py"] = [] :=
  git_noop_amended noRepoAnalyzer 0 [] ["a.py"] (fun _ _ => []) rfl rfl rfl rfl

end ProjectAnalyzer
